import Mathlib

/-!
Shallow embedding of the PixelCNN construction layer
(tensorkit/layers/pixelcnn.py).

Tensors are kept abstract: every claim under study is about the
combinatorial structure of the construction (kernel splitting, padding
computation, stack bookkeeping, context routing), so each definition is
parametrised over the tensor type.  Python exceptions are modelled with
Option / Except: a Python IndexError or ValueError becomes none /
Except.error.
-/

/-- Arguments handed to the external convolution constructor by
shifted_conv.  The source calls conv_cls(in_channels, out_channels,
kernel_size=..., dilation=..., padding=..., **kwargs); we record those
arguments. -/
structure ConvArgs where
  in_channels : Nat
  out_channels : Nat
  kernel_size : List Int
  dilation : List Int
  padding : List (Int × Int)
  deriving Repr, DecidableEq

/-- The padding list computed by shifted_conv: for every axis, with
t = (k - 1) * d, a causal axis (shift = true) gets (t, 0) and a
non-causal axis gets (t // 2, t - t // 2), where // is Python floor
division (Int.fdiv). -/
def shifted_conv_padding (spatial_shift : List Bool)
    (kernel_size dilation : List Int) : List (Int × Int) :=
  (spatial_shift.zip (kernel_size.zip dilation)).map (fun skd =>
    let t : Int := (skd.2.1 - 1) * skd.2.2
    if skd.1 then (t, 0) else (t.fdiv 2, t - t.fdiv 2))

/-- Embedding of shifted_conv: the caller-supplied padding keyword is
popped and discarded (kwargs.pop); the convolution is constructed with
the padding computed from the spatial shifts alone. -/
def shifted_conv (in_channels out_channels : Nat)
    (spatial_shift : List Bool) (kernel_size dilation : List Int)
    (padding : Option (List (Int × Int))) : ConvArgs :=
  { in_channels := in_channels
    out_channels := out_channels
    kernel_size := kernel_size
    dilation := dilation
    padding := shifted_conv_padding spatial_shift kernel_size dilation }

/-- Embedding of get_stack_kernel_sizes: row i, column j of the stack
kernel matrix is (k_j + 1) / 2 when j <= i and k_j otherwise. -/
def get_stack_kernel_sizes (kernel_size : List Nat) : List (List Nat) :=
  (List.range kernel_size.length).map (fun i =>
    (List.range kernel_size.length).map (fun j =>
      if j ≤ i then (kernel_size.getD j 0 + 1) / 2 else kernel_size.getD j 0))

/-- Embedding of get_stack_conv_shifts: row i is i+1 times true followed
by false. -/
def get_stack_conv_shifts (spatial_ndims : Nat) : List (List Bool) :=
  (List.range spatial_ndims).map (fun i =>
    List.replicate (i + 1) true ++ List.replicate (spatial_ndims - i - 1) false)

/-- Embedding of the kernel-size validation loop in
PixelCNNResBlockNd.__init__: every dimension must be at least 3 and odd,
otherwise a ValueError is raised. -/
def PixelCNNResBlock_validate_kernel_size : List Nat → Except String Unit
  | [] => Except.ok ()
  | k :: rest =>
    if k < 3 then
      Except.error "kernel_size is required to be at least 3"
    else if k % 2 != 1 then
      Except.error "kernel_size is required to be odd"
    else
      PixelCNNResBlock_validate_kernel_size rest

/-- Embedding of BranchAndAdd._call: evaluate every branch on the input,
then fold the outputs with addition starting from the first one.  An
empty branch list indexes branch_outputs[0] out of range, modelled by
none. -/
def BranchAndAdd_call {α : Type} [Add α] (branches : List (α → α))
    (input : α) : Option α :=
  match branches.map (fun branch => branch input) with
  | [] => none
  | out :: rest => some (rest.foldl (fun a b => a + b) out)

/-- Embedding of IgnoreLeadingContext._call: the wrapped layer receives
the context with its first first_n entries sliced away. -/
def IgnoreLeadingContext_call {α β : Type} (wrapped : α → List α → β)
    (first_n : Nat) (input : α) (context : List α) : β :=
  wrapped input (context.drop first_n)

/-- Embedding of the merge_context1 selection in
PixelCNNResBlockNd.__init__: for stack index i > 0 the factory output is
wrapped in IgnoreLeadingContext with first_n = i, for i = 0 it is used
directly. -/
def PixelCNNResBlock_merge_context1 {α β : Type} (merge_context1 : α → List α → β)
    (i : Nat) : α → List α → β :=
  if 0 < i then IgnoreLeadingContext_call merge_context1 i else merge_context1

/-- Embedding of the stack-construction loop of PixelCNNInputNd.__init__:
for i in range(1, spatial_ndims + 1), build i directional branches and
merge them with BranchAndAdd unless there is exactly one, in which case
that lone branch is used directly.  The branch bodies (shifted
convolution composed with SpatialShift) are external tensor work and are
passed in as a function of the loop indices. -/
def PixelCNNInput_stacks {α : Type} [Add α] (spatial_ndims : Nat)
    (branch : Nat → Nat → α → α) : List (α → Option α) :=
  (List.range spatial_ndims).map (fun i =>
    let stack_branches := (List.range (i + 1)).map (fun j => branch i j)
    if stack_branches.length = 1 then
      fun input => some ((stack_branches.headD id) input)
    else
      fun input => BranchAndAdd_call stack_branches input)

/-- The output-collection loop of PixelCNNInputNd._call: apply each stack
to the shared pre-processed input, propagating any failure. -/
def PixelCNNInput_forward_loop {α : Type} (stack_list : List (α → Option α))
    (output : α) : Option (List α) :=
  match stack_list with
  | [] => some []
  | s :: rest =>
    match s output with
    | none => none
    | some y =>
      match PixelCNNInput_forward_loop rest output with
      | none => none
      | some ys => some (y :: ys)

/-- Embedding of PixelCNNInputNd._call: validate that the input rank is
spatial_ndims + 2, then feed the (optionally ones-augmented) input to
every stack. -/
def PixelCNNInput_call {α : Type} (spatial_ndims : Nat) (rank : α → Nat)
    (add_ones_channel : α → α) (stack_list : List (α → Option α))
    (input : α) : Except String (List α) :=
  if rank input ≠ spatial_ndims + 2 then
    Except.error "input is expected to have rank spatial_ndims plus 2"
  else
    match PixelCNNInput_forward_loop stack_list (add_ones_channel input) with
    | some outputs => Except.ok outputs
    | none => Except.error "IndexError: list index out of range"

/-- Embedding of PixelCNNOutputNd._call: the input list must have exactly
spatial_ndims entries, and the last entry (inputs[-1]) is returned. -/
def PixelCNNOutput_call {α : Type} (spatial_ndims : Nat)
    (inputs : List α) : Except String α :=
  if inputs.length ≠ spatial_ndims then
    Except.error "len of inputs is expected to equal spatial_ndims"
  else
    match inputs.getLast? with
    | some x => Except.ok x
    | none => Except.error "IndexError: list index out of range"

/-- The loop of PixelCNNResBlockNd._call: walk the resnet layers with a
running index into inputs and the list of outputs emitted so far; layer
number i is applied to inputs[i] with context resnet_outputs ++ context,
and its output is appended.  Reading inputs[i] out of range is a Python
IndexError, modelled by none. -/
def PixelCNNResBlock_loop {α : Type} (inputs context : List α) :
    List (α → List α → α) → Nat → List α → Option (List α)
  | [], _, acc => some acc
  | layer :: rest, i, acc =>
    match inputs[i]? with
    | none => none
    | some x =>
      PixelCNNResBlock_loop inputs context rest (i + 1)
        (acc ++ [layer x (acc ++ context)])

/-- Embedding of PixelCNNResBlockNd._call. -/
def PixelCNNResBlock_call {α : Type} (resnet_layers : List (α → List α → α))
    (inputs context : List α) : Option (List α) :=
  PixelCNNResBlock_loop inputs context resnet_layers 0 []

/-- C2: for every kernel-size sequence whose entries are odd and at least
3, the stack kernel matrix is square of the same dimension and its entry
at row i, column j is the ceiling of k_j / 2 (which for odd k_j is
k_j / 2 + 1) when j <= i, and k_j otherwise. -/
theorem stack_kernel_matrix_entries (ks : List Nat)
    (hodd : ∀ k ∈ ks, k % 2 = 1) (h3 : ∀ k ∈ ks, 3 ≤ k) :
    (get_stack_kernel_sizes ks).length = ks.length ∧
    ∀ i j k, i < ks.length → ks[j]? = some k →
      ∃ row, (get_stack_kernel_sizes ks)[i]? = some row ∧
        row.length = ks.length ∧
        row[j]? = some (if j ≤ i then k / 2 + 1 else k) := by
  constructor
  · simp [get_stack_kernel_sizes]
  · intro i j k hi hj
    have hjlt : j < ks.length := (List.getElem?_eq_some.1 hj).1
    have hget : ks.getD j 0 = k := by
      unfold List.getD
      simp [hj]
    refine ⟨(List.range ks.length).map (fun j2 =>
      if j2 ≤ i then (ks.getD j2 0 + 1) / 2 else ks.getD j2 0), ?_, ?_, ?_⟩
    · simp [get_stack_kernel_sizes, List.getElem?_map, List.getElem?_range hi]
    · simp
    · have hodd2 : k % 2 = 1 := hodd k (List.getElem?_mem hj)
      have harith : (k + 1) / 2 = k / 2 + 1 := by omega
      simp [List.getElem?_map, List.getElem?_range hjlt, hj, harith]

/-- Witness for stack_kernel_matrix_entries at the kernel sizes [3, 5]. -/
theorem stack_kernel_matrix_entries_witness :
    (∀ k ∈ ([3, 5] : List Nat), k % 2 = 1) ∧
    (∀ k ∈ ([3, 5] : List Nat), 3 ≤ k) ∧
    ∃ row, (get_stack_kernel_sizes [3, 5])[1]? = some row ∧
      row.length = ([3, 5] : List Nat).length ∧
      row[0]? = some (if 0 ≤ 1 then 3 / 2 + 1 else 3) :=
  ⟨by decide, by decide,
    (stack_kernel_matrix_entries [3, 5] (by decide) (by decide)).2 1 0 3
      (by decide) rfl⟩

/-- C3: the convolution built by shifted_conv does not depend on the
caller-supplied padding at all, and on every axis its padding is
(t, 0) for a causal axis and (t // 2, t - t // 2) for a non-causal
axis, with t = (k - 1) * d. -/
theorem shifted_conv_padding_causal (in_ch out_ch : Nat) (ss : List Bool)
    (ks ds : List Int) (p q : Option (List (Int × Int)))
    (hk : ks.length = ss.length) (hd : ds.length = ss.length) :
    shifted_conv in_ch out_ch ss ks ds p = shifted_conv in_ch out_ch ss ks ds q ∧
    (shifted_conv in_ch out_ch ss ks ds p).padding.length = ss.length ∧
    ∀ (i : Nat) (s : Bool) (k d : Int),
      ss[i]? = some s → ks[i]? = some k → ds[i]? = some d →
      (shifted_conv in_ch out_ch ss ks ds p).padding[i]? =
        some (if s then ((k - 1) * d, (0 : Int))
          else (((k - 1) * d).fdiv 2, (k - 1) * d - ((k - 1) * d).fdiv 2)) := by
  refine ⟨rfl, ?_, ?_⟩
  · simp [shifted_conv, shifted_conv_padding, hk, hd]
  · intro i s k d hs hks hds
    have hz : (ks.zip ds)[i]? = some (k, d) :=
      List.getElem?_zip_eq_some.2 ⟨hks, hds⟩
    have hz2 : (ss.zip (ks.zip ds))[i]? = some (s, (k, d)) :=
      List.getElem?_zip_eq_some.2 ⟨hs, hz⟩
    cases s <;>
      simp [shifted_conv, shifted_conv_padding, List.getElem?_map, hz2]

/-- Witness for shifted_conv_padding_causal on a concrete 2-axis
configuration with a caller-supplied padding that is discarded. -/
theorem shifted_conv_padding_causal_witness :
    ([3, 5] : List Int).length = ([true, false] : List Bool).length ∧
    ([1, 2] : List Int).length = ([true, false] : List Bool).length ∧
    (shifted_conv 1 1 [true, false] [3, 5] [1, 2]
        (some [(9, 9)])).padding[0]? =
      some (if true then (((3 : Int) - 1) * 1, (0 : Int))
        else ((((3 : Int) - 1) * 1).fdiv 2,
          ((3 : Int) - 1) * 1 - (((3 : Int) - 1) * 1).fdiv 2)) :=
  ⟨rfl, rfl,
    (shifted_conv_padding_causal 1 1 [true, false] [3, 5] [1, 2]
      (some [(9, 9)]) none rfl rfl).2.2 0 true 3 1 rfl rfl rfl⟩

/-- C4 counterexample: get_stack_kernel_sizes performs no validation at
all; on the invalid kernel sizes 4 (even) and 2 (smaller than 3) it
returns a stack kernel matrix instead of raising. -/
theorem get_stack_kernel_sizes_no_validation :
    get_stack_kernel_sizes [4] = [[2]] ∧ get_stack_kernel_sizes [2] = [[1]] :=
  ⟨rfl, rfl⟩

/-- C4 amended: the even-or-small kernel check lives in
PixelCNNResBlockNd.__init__, whose validation loop raises a ValueError
for every kernel-size sequence containing an entry that is smaller than
3 or even. -/
theorem resblock_validate_rejects (ks : List Nat)
    (h : ∃ k ∈ ks, k < 3 ∨ k % 2 = 0) :
    ∃ e, PixelCNNResBlock_validate_kernel_size ks = Except.error e := by
  induction ks with
  | nil =>
    obtain ⟨k, hk, _⟩ := h
    simp at hk
  | cons k rest ih =>
    by_cases h1 : k < 3
    · exact ⟨"kernel_size is required to be at least 3",
        by simp [PixelCNNResBlock_validate_kernel_size, h1]⟩
    · by_cases h2 : k % 2 = 1
      · obtain ⟨k0, hk0, hbad⟩ := h
        rcases List.mem_cons.1 hk0 with heq | hmem
        · subst heq; omega
        · obtain ⟨e, he⟩ := ih ⟨k0, hmem, hbad⟩
          refine ⟨e, ?_⟩
          simp [PixelCNNResBlock_validate_kernel_size, h1, h2, he]
      · refine ⟨"kernel_size is required to be odd", ?_⟩
        have h2b : (k % 2 != 1) = true := by
          simp only [bne_iff_ne, ne_eq]
          omega
        simp [PixelCNNResBlock_validate_kernel_size, h1, h2b]

/-- Witness for resblock_validate_rejects at kernel size 4. -/
theorem resblock_validate_rejects_witness :
    (∃ k ∈ ([4] : List Nat), k < 3 ∨ k % 2 = 0) ∧
    ∃ e, PixelCNNResBlock_validate_kernel_size [4] = Except.error e :=
  ⟨by decide, resblock_validate_rejects [4] (by decide)⟩

/-- C6: the output stage raises when given a list whose length differs
from its configured spatial dimensionality, and otherwise returns
exactly the last element of the list. -/
theorem output_call_spec {α : Type} (D : Nat) (hD : 1 ≤ D)
    (inputs : List α) :
    (inputs.length ≠ D → ∃ e, PixelCNNOutput_call D inputs = Except.error e) ∧
    (inputs.length = D → ∃ x, inputs.getLast? = some x ∧
      PixelCNNOutput_call D inputs = Except.ok x) := by
  constructor
  · intro h
    exact ⟨"len of inputs is expected to equal spatial_ndims",
      by simp [PixelCNNOutput_call, h]⟩
  · intro h
    have hne : inputs ≠ [] := by
      intro hnil
      rw [hnil] at h
      simp at h
      omega
    obtain ⟨x, hx⟩ := Option.isSome_iff_exists.1 ((List.getLast?_isSome).2 hne)
    exact ⟨x, hx, by simp [PixelCNNOutput_call, h, hx]⟩

/-- Witness for output_call_spec at D = 2 with inputs [3, 7]. -/
theorem output_call_spec_witness :
    (1 : Nat) ≤ 2 ∧ ∃ x, ([3, 7] : List Nat).getLast? = some x ∧
      PixelCNNOutput_call 2 [3, 7] = Except.ok x :=
  ⟨by decide, (output_call_spec 2 (by decide) [3, 7]).2 rfl⟩

/-- C7: for stack index i > 0, the merge-context-1 layer built by the
residual-stage constructor hands its wrapped layer exactly the context
entries at positions at least i: the list passed has the original length
minus i, and its entry at position j is the original entry at i + j. -/
theorem merge_context1_drops_leading {α β : Type} (m : α → List α → β)
    (i : Nat) (hi : 0 < i) (input : α) (context : List α) :
    ∃ passed, PixelCNNResBlock_merge_context1 m i input context = m input passed ∧
      passed.length = context.length - i ∧
      ∀ j, passed[j]? = context[i + j]? := by
  refine ⟨context.drop i, ?_, List.length_drop i context,
    fun j => List.getElem?_drop context i j⟩
  simp [PixelCNNResBlock_merge_context1, hi, IgnoreLeadingContext_call]

/-- Witness for merge_context1_drops_leading at i = 1 on a three-entry
context. -/
theorem merge_context1_drops_leading_witness :
    0 < 1 ∧ ∃ passed,
      PixelCNNResBlock_merge_context1 (fun (_ : Nat) (c : List Nat) => c) 1 0
          [4, 5, 6] =
        (fun (_ : Nat) (c : List Nat) => c) 0 passed ∧
      passed.length = ([4, 5, 6] : List Nat).length - 1 ∧
      ∀ j, passed[j]? = ([4, 5, 6] : List Nat)[1 + j]? :=
  ⟨by decide,
    merge_context1_drops_leading (fun _ c => c) 1 (by decide) 0 [4, 5, 6]⟩

/-- C8: a BranchAndAdd merge holding exactly one branch returns that
branch output unchanged, with no summation applied. -/
theorem branch_and_add_single_identity {α : Type} [Add α] (f : α → α)
    (x : α) : BranchAndAdd_call [f] x = some (f x) := rfl

/-- Main invariant of the PixelCNNResBlockNd._call loop: starting from an
already-emitted prefix acc at running index acc.length, and given enough
inputs, the loop succeeds and returns a list extending acc in which every
later entry is the corresponding layer applied to the corresponding input
with the previously emitted outputs, then the external context, as its
context. -/
theorem resblock_loop_spec {α : Type} (inputs context : List α) :
    ∀ (ls : List (α → List α → α)) (acc : List α),
      acc.length + ls.length ≤ inputs.length →
      ∃ res, PixelCNNResBlock_loop inputs context ls acc.length acc = some res ∧
        res.length = acc.length + ls.length ∧
        res.take acc.length = acc ∧
        ∀ j l x, ls[j]? = some l → inputs[acc.length + j]? = some x →
          res[acc.length + j]? = some (l x (res.take (acc.length + j) ++ context)) := by
  intro ls
  induction ls with
  | nil =>
    intro acc h
    refine ⟨acc, rfl, by simp, List.take_length acc, ?_⟩
    intro j l x hl
    simp at hl
  | cons l rest ih =>
    intro acc h
    have hlt : acc.length < inputs.length := by
      simp only [List.length_cons] at h
      omega
    have hx0 : inputs[acc.length]? = some inputs[acc.length] :=
      List.getElem?_eq_getElem hlt
    obtain ⟨res, hres, hlen, htake, hspec⟩ :=
      ih (acc ++ [l inputs[acc.length] (acc ++ context)])
        (by simp only [List.length_append, List.length_cons, List.length_nil,
              List.length_singleton] at h ⊢; omega)
    simp only [List.length_append, List.length_singleton, List.length_cons,
      List.length_nil] at hres hlen htake hspec
    have htk : res.take acc.length = acc := by
      have h1 : res.take acc.length = (res.take (acc.length + 1)).take acc.length := by
        rw [List.take_take]
        have : acc.length ⊓ (acc.length + 1) = acc.length := by omega
        rw [this]
      rw [h1, htake]
      exact List.take_left acc _
    refine ⟨res, ?_, ?_, htk, ?_⟩
    · simp only [PixelCNNResBlock_loop, hx0]
      exact hres
    · simp only [List.length_cons]
      omega
    · intro j l2 x hl hx
      cases j with
      | zero =>
        simp only [List.getElem?_cons_zero, Option.some.injEq] at hl
        subst hl
        simp only [Nat.add_zero] at hx ⊢
        rw [hx0] at hx
        simp only [Option.some.injEq] at hx
        subst hx
        have hresl : acc.length < res.length := by omega
        rw [← List.getElem?_take_of_lt (Nat.lt_succ_self acc.length), htake, htk]
        exact List.getElem?_concat_length acc _
      | succ j2 =>
        simp only [List.getElem?_cons_succ] at hl
        have e1 : acc.length + (j2 + 1) = acc.length + 1 + j2 := by omega
        rw [e1] at hx ⊢
        exact hspec j2 l2 x hl hx

/-- The PixelCNNResBlockNd._call loop only reads the inputs at the
indices it visits: two input lists agreeing on those positions give the
same result. -/
theorem resblock_loop_inputs_congr {α : Type} (context inputs inputs2 : List α) :
    ∀ (ls : List (α → List α → α)) (i : Nat) (acc : List α),
      (∀ j, j < ls.length → inputs[i + j]? = inputs2[i + j]?) →
      PixelCNNResBlock_loop inputs context ls i acc =
        PixelCNNResBlock_loop inputs2 context ls i acc := by
  intro ls
  induction ls with
  | nil =>
    intro i acc _
    rfl
  | cons l rest ih =>
    intro i acc h
    have h0 : inputs[i]? = inputs2[i]? := by
      have := h 0 (by simp)
      simpa using this
    simp only [PixelCNNResBlock_loop, h0]
    cases hc : inputs2[i]? with
    | none => rfl
    | some x =>
      exact ih (i + 1) (acc ++ [l x (acc ++ context)])
        (fun j hj => by
          have e1 : i + 1 + j = i + (j + 1) := by omega
          rw [e1]
          exact h (j + 1) (by simp only [List.length_cons]; omega))

/-- When the layer list outruns the input list, the loop hits an
out-of-range read and fails. -/
theorem resblock_loop_short {α : Type} (inputs context : List α) :
    ∀ (ls : List (α → List α → α)) (i : Nat) (acc : List α),
      ls ≠ [] → inputs.length < i + ls.length →
      PixelCNNResBlock_loop inputs context ls i acc = none := by
  intro ls
  induction ls with
  | nil =>
    intro i acc hne _
    exact absurd rfl hne
  | cons l rest ih =>
    intro i acc _ hlt
    cases hx : inputs[i]? with
    | none => simp [PixelCNNResBlock_loop, hx]
    | some x =>
      have hi : i < inputs.length := (List.getElem?_eq_some.1 hx).1
      have hrest : rest ≠ [] := by
        intro hr
        subst hr
        simp only [List.length_cons, List.length_nil] at hlt
        omega
      simp only [PixelCNNResBlock_loop, hx]
      exact ih (i + 1) (acc ++ [l x (acc ++ context)]) hrest
        (by simp only [List.length_cons] at hlt; omega)

/-- C1: the residual-stage forward processes the stacks in order with a
running emitted list: the stage returns the emitted list, it has one
entry per resnet layer, and each entry j is layer j applied to input j
with context equal to the previously emitted entries followed by the
external context. -/
theorem resblock_forward_in_order {α : Type}
    (layers : List (α → List α → α)) (inputs context : List α)
    (h : layers.length ≤ inputs.length) :
    ∃ emitted, PixelCNNResBlock_call layers inputs context = some emitted ∧
      emitted.length = layers.length ∧
      ∀ (j : Nat) (l : α → List α → α) (x : α),
        layers[j]? = some l → inputs[j]? = some x →
        emitted[j]? = some (l x (emitted.take j ++ context)) := by
  obtain ⟨res, h1, h2, _h3, h4⟩ :=
    resblock_loop_spec inputs context layers [] (by simpa)
  refine ⟨res, ?_, by simpa using h2, ?_⟩
  · simpa [PixelCNNResBlock_call] using h1
  · intro j l x hl hx
    simpa using h4 j l x hl (by simpa using hx)

/-- Witness for resblock_forward_in_order on a concrete two-layer stage. -/
theorem resblock_forward_in_order_witness :
    ([fun (x : Nat) (_ : List Nat) => x + 1,
      fun (x : Nat) (c : List Nat) => x + c.length] :
        List (Nat → List Nat → Nat)).length ≤ ([5, 6] : List Nat).length ∧
    ∃ emitted,
      PixelCNNResBlock_call
          [fun (x : Nat) (_ : List Nat) => x + 1,
            fun (x : Nat) (c : List Nat) => x + c.length] [5, 6] [9] =
        some emitted ∧
      emitted.length =
        ([fun (x : Nat) (_ : List Nat) => x + 1,
          fun (x : Nat) (c : List Nat) => x + c.length] :
            List (Nat → List Nat → Nat)).length ∧
      ∀ (j : Nat) (l : Nat → List Nat → Nat) (x : Nat),
        ([fun (x : Nat) (_ : List Nat) => x + 1,
          fun (x : Nat) (c : List Nat) => x + c.length] :
            List (Nat → List Nat → Nat))[j]? = some l →
        ([5, 6] : List Nat)[j]? = some x →
        emitted[j]? = some (l x (emitted.take j ++ [9])) :=
  ⟨by simp,
    resblock_forward_in_order
      [fun (x : Nat) (_ : List Nat) => x + 1,
        fun (x : Nat) (c : List Nat) => x + c.length] [5, 6] [9] (by simp)⟩

/-- C5 counterexample: a residual stage with one resnet layer, given two
input stacks, raises nothing and returns an output, contradicting the
claim that a stack list whose length differs from the configured number
of stacks raises an arity error. -/
theorem resblock_forward_oversized_no_error :
    PixelCNNResBlock_call [fun (x : Nat) (_ : List Nat) => x] [7, 8] [] =
      some [7] := rfl

/-- C5 amended: PixelCNNResBlockNd._call performs no arity check.  It
fails (with an out-of-range read, not an arity error) exactly when the
input stack list is shorter than the number of configured resnet layers;
longer input lists are accepted without any error. -/
theorem resblock_forward_no_arity_check {α : Type}
    (layers : List (α → List α → α)) (inputs context : List α) :
    (PixelCNNResBlock_call layers inputs context).isSome =
      decide (layers.length ≤ inputs.length) := by
  by_cases h : layers.length ≤ inputs.length
  · obtain ⟨res, h1, _, _, _⟩ :=
      resblock_loop_spec inputs context layers [] (by simpa)
    have h1b : PixelCNNResBlock_call layers inputs context = some res := by
      simpa [PixelCNNResBlock_call] using h1
    simp [h1b, h]
  · have hne : layers ≠ [] := by
      intro hl
      subst hl
      simp at h
    have hnone : PixelCNNResBlock_call layers inputs context = none := by
      unfold PixelCNNResBlock_call
      exact resblock_loop_short inputs context layers 0 [] hne (by omega)
    simp [hnone, h]

/-- C10: with at least as many input stacks as configured resnet layers,
the residual-stage forward succeeds, returns exactly one output per
layer, and its result only depends on the first layers.length inputs:
the extra entries are ignored. -/
theorem resblock_forward_ignores_extra_inputs {α : Type}
    (layers : List (α → List α → α)) (inputs context : List α)
    (h : layers.length ≤ inputs.length) :
    ∃ outputs, PixelCNNResBlock_call layers inputs context = some outputs ∧
      outputs.length = layers.length ∧
      PixelCNNResBlock_call layers inputs context =
        PixelCNNResBlock_call layers (inputs.take layers.length) context := by
  obtain ⟨res, h1, h2, _, _⟩ :=
    resblock_loop_spec inputs context layers [] (by simpa)
  refine ⟨res, by simpa [PixelCNNResBlock_call] using h1, by simpa using h2, ?_⟩
  unfold PixelCNNResBlock_call
  exact resblock_loop_inputs_congr context inputs (inputs.take layers.length)
    layers 0 []
    (fun j hj => by
      rw [List.getElem?_take_of_lt (by simpa using hj)])

/-- Witness for resblock_forward_ignores_extra_inputs with one layer and
two inputs. -/
theorem resblock_forward_ignores_extra_inputs_witness :
    ([fun (x : Nat) (_ : List Nat) => x] :
        List (Nat → List Nat → Nat)).length ≤ ([3, 4] : List Nat).length ∧
    ∃ outputs,
      PixelCNNResBlock_call [fun (x : Nat) (_ : List Nat) => x] [3, 4] [] =
        some outputs ∧
      outputs.length =
        ([fun (x : Nat) (_ : List Nat) => x] :
          List (Nat → List Nat → Nat)).length ∧
      PixelCNNResBlock_call [fun (x : Nat) (_ : List Nat) => x] [3, 4] [] =
        PixelCNNResBlock_call [fun (x : Nat) (_ : List Nat) => x]
          (([3, 4] : List Nat).take
            ([fun (x : Nat) (_ : List Nat) => x] :
              List (Nat → List Nat → Nat)).length) [] :=
  ⟨by simp,
    resblock_forward_ignores_extra_inputs
      [fun (x : Nat) (_ : List Nat) => x] [3, 4] [] (by simp)⟩

/-- BranchAndAdd succeeds on every nonempty branch list. -/
theorem branch_and_add_total {α : Type} [Add α] (bs : List (α → α))
    (hne : bs ≠ []) (x : α) : ∃ y, BranchAndAdd_call bs x = some y := by
  cases bs with
  | nil => exact absurd rfl hne
  | cons b rest => exact ⟨_, rfl⟩

/-- Every stack module built by the input-stage constructor succeeds on
every input: the branch list for stack i has i + 1 entries, hence is
never empty. -/
theorem input_stacks_total {α : Type} [Add α] (D : Nat)
    (branch : Nat → Nat → α → α) :
    ∀ s ∈ PixelCNNInput_stacks D branch, ∀ x, ∃ y, s x = some y := by
  intro s hs x
  simp only [PixelCNNInput_stacks, List.mem_map, List.mem_range] at hs
  obtain ⟨i, _, rfl⟩ := hs
  by_cases hlen : ((List.range (i + 1)).map (fun j => branch i j)).length = 1
  · simp only [hlen, if_pos]
    exact ⟨_, rfl⟩
  · simp only [hlen, if_neg, ite_false]
    apply branch_and_add_total
    intro hmt
    rw [hmt] at hlen
    simp at hlen
    have : (List.range (i + 1)).map (fun j => branch i j) = [] := hmt
    have hl : ((List.range (i + 1)).map (fun j => branch i j)).length = i + 1 := by
      simp
    rw [this] at hl
    simp at hl

/-- The input-stage forward loop succeeds, preserving length, whenever
every stack module succeeds on the shared input. -/
theorem input_forward_loop_total {α : Type} (sl : List (α → Option α))
    (x : α) (h : ∀ s ∈ sl, ∃ y, s x = some y) :
    ∃ ys, PixelCNNInput_forward_loop sl x = some ys ∧ ys.length = sl.length := by
  induction sl with
  | nil => exact ⟨[], rfl, rfl⟩
  | cons s rest ih =>
    obtain ⟨y, hy⟩ := h s (List.mem_cons_self s rest)
    obtain ⟨ys, hys, hlen⟩ := ih (fun t ht => h t (List.mem_cons_of_mem s ht))
    refine ⟨y :: ys, ?_, by simp [hlen]⟩
    simp only [PixelCNNInput_forward_loop, hy, hys]

/-- C9: the input stage built for D spatial dimensions raises exactly
when the input rank differs from D + 2, and otherwise returns one output
per directional stack, that is, a list of length D. -/
theorem input_call_rank_check {α : Type} [Add α] (D : Nat) (rank : α → Nat)
    (add_ones_channel : α → α) (branch : Nat → Nat → α → α) (input : α) :
    (rank input ≠ D + 2 → ∃ e,
      PixelCNNInput_call D rank add_ones_channel
        (PixelCNNInput_stacks D branch) input = Except.error e) ∧
    (rank input = D + 2 → ∃ outputs,
      PixelCNNInput_call D rank add_ones_channel
        (PixelCNNInput_stacks D branch) input = Except.ok outputs ∧
      outputs.length = D) := by
  constructor
  · intro h
    exact ⟨"input is expected to have rank spatial_ndims plus 2",
      by simp [PixelCNNInput_call, h]⟩
  · intro h
    obtain ⟨ys, hys, hlen⟩ :=
      input_forward_loop_total (PixelCNNInput_stacks D branch)
        (add_ones_channel input)
        (fun s hs => input_stacks_total D branch s hs (add_ones_channel input))
    refine ⟨ys, ?_, ?_⟩
    · simp [PixelCNNInput_call, h, hys]
    · rw [hlen]
      simp [PixelCNNInput_stacks]

/-- Witness for input_call_rank_check at D = 2 on a rank-4 input. -/
theorem input_call_rank_check_witness :
    ((fun (_ : Nat) => 4) 0 = 2 + 2) ∧
    ∃ outputs,
      PixelCNNInput_call 2 (fun _ => 4) id
        (PixelCNNInput_stacks 2 (fun _ _ x => x + 1)) 0 = Except.ok outputs ∧
      outputs.length = 2 :=
  ⟨rfl, (input_call_rank_check 2 (fun _ => 4) id (fun _ _ x => x + 1) 0).2 rfl⟩
